import Mathlib

/-!
Shallow embedding of the DAT angle-practice core: the test-session reducer
(providers/TestProvider.tsx), the procedural question generator
(lib/angleGenerator.ts), the scoring functions (lib/scoring.ts) and the
pure parts of the storage layer (lib/storage.ts).

JavaScript numbers are modelled as `ℚ` (or `ℤ`/`ℕ` where the source only
ever holds integers), `Math.random()` as a tape of rational values in
`[0, 1)` consumed left to right, and `Date.now()` as an explicit `now`
parameter.
-/

namespace AnglePractice

/-- `Math.round`: round half toward positive infinity. -/
def jsRound (q : ℚ) : ℤ := ⌊q + 1/2⌋

/-- Randomness source: an infinite tape of `Math.random()` outcomes plus the
position of the next unconsumed value. -/
structure RState where
  tape : ℕ → ℚ
  pos : ℕ

/-- One call to `Math.random()`. -/
def mathRandom (r : RState) : ℚ × RState :=
  (r.tape r.pos, { r with pos := r.pos + 1 })

/-- All values on the tape are in `[0, 1)`, as `Math.random()` guarantees. -/
def RState.Valid (r : RState) : Prop :=
  ∀ n, 0 ≤ r.tape n ∧ r.tape n < 1

theorem RState.Valid.step {r : RState} (h : r.Valid) :
    (mathRandom r).2.Valid := by
  intro n; exact h n

theorem RState.Valid.fst_nonneg {r : RState} (h : r.Valid) :
    0 ≤ (mathRandom r).1 := (h r.pos).1

theorem RState.Valid.fst_lt_one {r : RState} (h : r.Valid) :
    (mathRandom r).1 < 1 := (h r.pos).2

/-! ## Data model (types/index.ts) -/

/-- `Angle` from types/index.ts. `degrees` is a JS number (one decimal after
generation); `rotation` and the arm lengths are produced by `Math.floor` /
`Math.round`, hence integers. -/
structure Angle where
  id : String
  degrees : ℚ
  rotation : ℤ
  armLength1 : ℤ
  armLength2 : ℤ
deriving DecidableEq

/-- `Question` from types/index.ts. -/
structure Question where
  id : ℕ
  angles : List Angle
  correctOrder : List String
deriving DecidableEq

/-- `TestSession` from types/index.ts. Timestamps are `Date.now()` values. -/
structure TestSession where
  id : String
  questions : List Question
  userAnswers : List (Option (List String))
  startTime : ℕ
  endTime : Option ℕ
  isCompleted : Bool
  score : Option ℕ
deriving DecidableEq

/-- `TestState` from types/index.ts. -/
structure TestState where
  currentSession : Option TestSession
  currentQuestionIndex : ℕ
  timeRemaining : ℤ
  isActive : Bool
  currentSelections : List String
deriving DecidableEq

/-- `TestAction` from types/index.ts. `UPDATE_TIMER`'s payload is a JS number
that may be negative, hence `ℤ`. -/
inductive TestAction where
  | startTest (payload : TestSession)
  | selectAngle (payload : String)
  | deselectAngle (payload : String)
  | clearSelections
  | nextQuestion
  | submitTest
  | updateTimer (payload : ℤ)
  | endTest
  | loadSession (payload : TestSession)
  | resetTest
deriving DecidableEq

/-! ## Session state machine (providers/TestProvider.tsx) -/

/-- `initialState` from TestProvider.tsx. -/
def initialState : TestState :=
  { currentSession := none
    currentQuestionIndex := 0
    timeRemaining := 600
    isActive := false
    currentSelections := [] }

/-- `testReducer` from TestProvider.tsx. `now` supplies `Date.now()`;
`indexOf` returning `-1` is the non-membership case of `List.indexOf`, and
`slice(0, i)` is `List.take i`. In `NEXT_QUESTION` the spread
`[...slice(0, i), sel, ...slice(i + 1)]` is `take i ++ [sel] ++ drop (i+1)`,
and in `SUBMIT_TEST` the in-bounds assignment `arr[i] = sel` is
`List.set i`. -/
def testReducer (now : ℕ) (state : TestState) (action : TestAction) : TestState :=
  match action with
  | .startTest payload =>
      { state with
        currentSession := some payload
        currentQuestionIndex := 0
        timeRemaining := 600
        isActive := true
        currentSelections := [] }
  | .selectAngle angleId =>
      if angleId ∈ state.currentSelections then
        { state with
          currentSelections :=
            state.currentSelections.take (state.currentSelections.indexOf angleId) }
      else if 4 ≤ state.currentSelections.length then
        state
      else
        { state with currentSelections := state.currentSelections ++ [angleId] }
  | .deselectAngle angleId =>
      if angleId ∈ state.currentSelections then
        { state with
          currentSelections :=
            state.currentSelections.take (state.currentSelections.indexOf angleId) }
      else
        state
  | .clearSelections =>
      { state with currentSelections := [] }
  | .nextQuestion =>
      match state.currentSession with
      | none => state
      | some sess =>
          if state.currentSelections.length ≠ 4 then state
          else
            let updatedSession :=
              { sess with
                userAnswers :=
                  sess.userAnswers.take state.currentQuestionIndex
                    ++ [some state.currentSelections]
                    ++ sess.userAnswers.drop (state.currentQuestionIndex + 1) }
            if 14 ≤ state.currentQuestionIndex then
              { state with
                currentSession := some
                  { updatedSession with endTime := some now, isCompleted := true }
                isActive := false
                currentSelections := [] }
            else
              { state with
                currentSession := some updatedSession
                currentQuestionIndex := state.currentQuestionIndex + 1
                currentSelections := [] }
  | .submitTest =>
      match state.currentSession with
      | none => state
      | some sess =>
          let updatedAnswers :=
            if state.currentSelections.length ≠ 0 then
              sess.userAnswers.set state.currentQuestionIndex
                (some state.currentSelections)
            else
              sess.userAnswers
          { state with
            currentSession := some
              { sess with
                userAnswers := updatedAnswers
                endTime := some now
                isCompleted := true }
            isActive := false
            currentSelections := [] }
  | .updateTimer payload =>
      { state with timeRemaining := max 0 payload }
  | .endTest =>
      match state.currentSession with
      | none => state
      | some sess =>
          { state with
            currentSession := some
              { sess with endTime := some now, isCompleted := true }
            isActive := false
            currentSelections := [] }
  | .loadSession payload =>
      { state with
        currentSession := some payload
        currentQuestionIndex := 0
        timeRemaining := 600
        isActive := false
        currentSelections := [] }
  | .resetTest =>
      initialState

/-- Folding a finite sequence of timestamped actions from a start state. -/
def runActions (s : TestState) (acts : List (ℕ × TestAction)) : TestState :=
  acts.foldl (fun st p => testReducer p.1 st p.2) s

/-! ## Question generator (lib/angleGenerator.ts)

The `ANGLE_CONFIG` constants are inlined at their use sites: `MIN_DELTA = 2`,
`MAX_DELTA = 5`, `ACUTE_RANGE = 15..85`, `OBTUSE_RANGE = 95..165`,
`ARM_LENGTH = 60..160`, `ROTATION_RANGE.max = 359`,
`MAX_GENERATION_ATTEMPTS = 50`, `UNIQUENESS_THRESHOLD = 0.5`. -/

/-- `selectBaseAngle` from angleGenerator.ts: pick one of
`['acute', 'obtuse', 'mixed']` by `Math.floor(Math.random() * 3)` (an index
out of `{0, 1, 2}` falls to the `default` branch returning `45`, consuming no
further randomness), then sample the chosen range. -/
def selectBaseAngle (r : RState) : ℚ × RState :=
  let t := mathRandom r
  match (⌊t.1 * 3⌋ : ℤ) with
  | 0 =>
      let q := mathRandom t.2
      (15 + q.1 * (85 - 15), q.2)
  | 1 =>
      let q := mathRandom t.2
      (95 + q.1 * (165 - 95), q.2)
  | 2 =>
      let q := mathRandom t.2
      (70 + q.1 * 40, q.2)
  | _ => (45, t.2)

/-- The `for` loop of `generateAngleSet`: `i` is the loop counter (running
`1, 2, 3`), `fuel` the remaining iterations, `acc` the array built so far and
`last` its final element (`angles[i - 1]`). When the forward step would
exceed `180`, a second random draw gives the backward delta and
`Math.max(0, baseAngle - backwardDelta * i)` is pushed instead. -/
def generateAngleSetLoop (baseAngle : ℚ) :
    ℕ → ℕ → List ℚ → ℚ → RState → List ℚ × RState
  | _, 0, acc, _, r => (acc, r)
  | i, fuel + 1, acc, last, r =>
      let d := mathRandom r
      let delta := 2 + d.1 * (5 - 2)
      let newAngle := last + delta
      if 180 < newAngle then
        let bd := mathRandom d.2
        let backwardDelta := 2 + bd.1 * (5 - 2)
        let v := max 0 (baseAngle - backwardDelta * (i : ℚ))
        generateAngleSetLoop baseAngle (i + 1) fuel (acc ++ [v]) v bd.2
      else
        generateAngleSetLoop baseAngle (i + 1) fuel (acc ++ [newAngle]) newAngle d.2

/-- The uniqueness-fix loop of `generateAngleSet`, walking the sorted array:
`prev` is `angles[i - 1]` after any adjustment; a too-close element is moved
to `angles[i - 1] + 0.5 + Math.random()`. -/
def fixUniqueness (prev : ℚ) : List ℚ → RState → List ℚ × RState
  | [], r => ([], r)
  | a :: rest, r =>
      if a - prev < 1/2 then
        let j := mathRandom r
        let adjusted := prev + 1/2 + j.1
        let res := fixUniqueness adjusted rest j.2
        (adjusted :: res.1, res.2)
      else
        let res := fixUniqueness a rest r
        (a :: res.1, res.2)

/-- `generateAngleSet` from angleGenerator.ts: build `[baseAngle]` plus three
more values, sort ascending (`(a, b) => a - b`), then enforce the `0.5`
uniqueness threshold on adjacent elements. -/
def generateAngleSet (baseAngle : ℚ) (r : RState) : List ℚ × RState :=
  let built := generateAngleSetLoop baseAngle 1 3 [baseAngle] baseAngle r
  match List.insertionSort (· ≤ ·) built.1 with
  | [] => ([], built.2)
  | a :: rest =>
      let fixed := fixUniqueness a rest built.2
      (a :: fixed.1, fixed.2)

/-- The adjacent-gap check of `validateAngleSet` over the sorted copy:
fails as soon as `sorted[i] - sorted[i-1] < 0.5`. -/
def gapsOK : List ℚ → Bool
  | [] => true
  | [_] => true
  | a :: b :: rest => decide (1/2 ≤ b - a) && gapsOK (b :: rest)

/-- `validateAngleSet` from angleGenerator.ts: exactly 4 values, adjacent
gaps of the sorted copy at least `0.5`, everything in `[0, 180]`. -/
def validateAngleSet (angles : List ℚ) : Bool :=
  if angles.length ≠ 4 then false
  else
    gapsOK (List.insertionSort (· ≤ ·) angles) &&
      angles.all fun a => decide (0 ≤ a) && decide (a ≤ 180)

/-- The template string `angle-${index}-${Math.round(degrees * 100)}`. -/
def mkAngleId (index : ℕ) (v : ℤ) : String :=
  "angle-" ++ toString index ++ "-" ++ toString v

/-- `addVisualProperties` from angleGenerator.ts: the id, a rotation
`Math.floor(Math.random() * 359)`, two independently drawn arm lengths in
`ARM_LENGTH = 60..160`, and `degrees` rounded to one decimal. -/
def addVisualProperties (degrees : ℚ) (index : ℕ) (r : RState) : Angle × RState :=
  let q1 := mathRandom r
  let q2 := mathRandom q1.2
  let q3 := mathRandom q2.2
  ({ id := mkAngleId index (jsRound (degrees * 100))
     degrees := (jsRound (degrees * 10) : ℚ) / 10
     rotation := ⌊q1.1 * 359⌋
     armLength1 := jsRound (60 + q2.1 * (160 - 60))
     armLength2 := jsRound (60 + q3.1 * (160 - 60)) }, q3.2)

/-- `angleSet.map((degrees, index) => addVisualProperties(degrees, index))`:
the callbacks run left to right, each consuming randomness. -/
def addVisualPropertiesMap : List ℚ → ℕ → RState → List Angle × RState
  | [], _, r => ([], r)
  | d :: ds, i, r =>
      let p := addVisualProperties d i r
      let rest := addVisualPropertiesMap ds (i + 1) p.2
      (p.1 :: rest.1, rest.2)

instance : Inhabited Angle :=
  ⟨{ id := "", degrees := 0, rotation := 0, armLength1 := 0, armLength2 := 0 }⟩

/-- The destructuring swap `[a[i], a[j]] = [a[j], a[i]]` of two array cells
(both reads happen before either write). -/
def listSwap (l : List Angle) (i j : ℕ) : List Angle :=
  let a := l.getD i default
  let b := l.getD j default
  (l.set i b).set j a

/-- The Fisher–Yates loop of `shuffleArray`: for the loop counter `i + 1`
(running from `length - 1` down to `1`), pick
`j = Math.floor(Math.random() * (i + 2))` and swap. -/
def shuffleLoop : List Angle → ℕ → RState → List Angle × RState
  | l, 0, r => (l, r)
  | l, i + 1, r =>
      let q := mathRandom r
      let j := (⌊q.1 * ((i : ℚ) + 2)⌋).toNat
      shuffleLoop (listSwap l (i + 1) j) i q.2

/-- `shuffleArray` from angleGenerator.ts. -/
def shuffleArray (l : List Angle) (r : RState) : List Angle × RState :=
  shuffleLoop l (l.length - 1) r

/-- The comparator `(a, b) => a.degrees - b.degrees` as a relation. -/
def degLE (a b : Angle) : Prop := a.degrees ≤ b.degrees

instance : DecidableRel degLE :=
  fun a b => inferInstanceAs (Decidable (a.degrees ≤ b.degrees))

instance : IsTotal Angle degLE := ⟨fun a b => le_total a.degrees b.degrees⟩

instance : IsTrans Angle degLE := ⟨fun _ _ _ h1 h2 => le_trans h1 h2⟩

/-- `getCorrectOrder` from angleGenerator.ts:
`[...angles].sort((a, b) => a.degrees - b.degrees).map(a => a.id)`. -/
def getCorrectOrder (angles : List Angle) : List String :=
  (List.insertionSort degLE angles).map (·.id)

/-- The retry loop of `generateQuestion`: returns `some angleSet` as soon as
an attempt passes `validateAngleSet`, `none` once the attempt budget is
exhausted (the caller then falls back to the fixed set). -/
def angleSetAttempts : ℕ → RState → Option (List ℚ) × RState
  | 0, r => (none, r)
  | fuel + 1, r =>
      let b := selectBaseAngle r
      let g := generateAngleSet b.1 b.2
      if validateAngleSet g.1 then (some g.1, g.2)
      else angleSetAttempts fuel g.2

/-- `generateQuestion` from angleGenerator.ts: up to
`MAX_GENERATION_ATTEMPTS = 50` attempts, fallback set `[30, 35, 40, 45]`,
visual properties per magnitude, `correctOrder` sorted ascending by degrees,
display order shuffled. -/
def generateQuestion (questionId : ℕ) (r : RState) : Question × RState :=
  let p1 := angleSetAttempts 50 r
  let angleSet := p1.1.getD [30, 35, 40, 45]
  let p2 := addVisualPropertiesMap angleSet 0 p1.2
  let correctOrder := (List.insertionSort degLE p2.1).map (·.id)
  let p3 := shuffleArray p2.1 p2.2
  ({ id := questionId, angles := p3.1, correctOrder := correctOrder }, p3.2)

/-- `validateQuestion` from angleGenerator.ts. `!question.id` is true for a
natural-number id exactly when it is `0`; the `angles` and `correctOrder`
arrays are always truthy. `new Set(xs).size` is `xs.dedup.length`, and the
`JSON.stringify` comparison of two string arrays is list equality. -/
def validateQuestion (question : Question) : Bool :=
  if question.id = 0 then false
  else if question.angles.length ≠ 4 ∨ question.correctOrder.length ≠ 4 then false
  else
    let angleIds := question.angles.map (·.id)
    if angleIds.dedup.length ≠ 4 then false
    else if question.correctOrder.dedup.length ≠ angleIds.dedup.length then false
    else if ¬ (angleIds.all fun id => question.correctOrder.contains id) then false
    else decide (getCorrectOrder question.angles = question.correctOrder)

/-! ## Scoring (lib/scoring.ts) -/

/-- `arraysEqual` from scoring.ts: length check, then an index-by-index
comparison. -/
def arraysEqual (arr1 arr2 : List String) : Bool :=
  if arr1.length ≠ arr2.length then false
  else (List.range arr1.length).all fun i => arr1.getD i "" == arr2.getD i ""

/-- `isAnswerCorrect` from scoring.ts: `!userAnswer` is true exactly for the
absent (`null`) answer, since a JS array — even an empty one — is truthy. -/
def isAnswerCorrect (question : Question) (userAnswer : Option (List String)) : Bool :=
  match userAnswer with
  | none => false
  | some arr =>
      if arr.length ≠ 4 then false
      else arraysEqual arr question.correctOrder

/-! ## Storage (lib/storage.ts) -/

/-- Dynamically-typed JSON-like values, as seen by the duck-typed validation
of persisted blobs. -/
inductive JsValue where
  | undef
  | nullV
  | bool (b : Bool)
  | num (q : ℚ)
  | str (s : String)
  | arr (elems : List JsValue)
  | obj (fields : List (String × JsValue))

/-- Property access `v.k`: on an object the first binding wins and missing
keys give `undefined`; the string keys read by the storage code do not exist
on any non-object value. -/
def jsField (v : JsValue) (k : String) : JsValue :=
  match v with
  | .obj fields =>
      match fields.find? (fun p => p.1 == k) with
      | some p => p.2
      | none => .undef
  | _ => .undef

def JsValue.isString : JsValue → Bool
  | .str _ => true
  | _ => false

def JsValue.isNumber : JsValue → Bool
  | .num _ => true
  | _ => false

def JsValue.isBoolean : JsValue → Bool
  | .bool _ => true
  | _ => false

def JsValue.isArray : JsValue → Bool
  | .arr _ => true
  | _ => false

/-- `xs.length`, read after an `Array.isArray` check has passed. -/
def JsValue.arrayLength : JsValue → ℕ
  | .arr elems => elems.length
  | _ => 0

/-- `isValidTestSession` from storage.ts. The guard
`!data || typeof data !== 'object' || data === null` lets exactly objects and
arrays through (a JS array has `typeof` `'object'`); an array has none of the
accessed string keys, so its field reads give `undefined` and the checks
below fail. -/
def isValidTestSession (data : JsValue) : Bool :=
  match data with
  | .obj _ | .arr _ =>
      (jsField data "id").isString &&
      (jsField data "questions").isArray &&
      (jsField data "userAnswers").isArray &&
      (jsField data "startTime").isNumber &&
      (jsField data "isCompleted").isBoolean &&
      ((jsField data "questions").arrayLength == 15) &&
      ((jsField data "userAnswers").arrayLength == 15)
  | _ => false

/-- Sort key of history entries: the `startTime` field (a number on every
entry that passed validation). -/
def startKey (v : JsValue) : ℚ :=
  match jsField v "startTime" with
  | .num q => q
  | _ => 0

/-- The descending comparator `(a, b) => b.startTime - a.startTime`. -/
def historyGE (a b : JsValue) : Prop := startKey b ≤ startKey a

instance : DecidableRel historyGE :=
  fun a b => inferInstanceAs (Decidable (startKey b ≤ startKey a))

instance : IsTotal JsValue historyGE := ⟨fun a b => le_total (startKey b) (startKey a)⟩

instance : IsTrans JsValue historyGE := ⟨fun _ _ _ h1 h2 => le_trans h2 h1⟩

/-- The pure core of `getTestHistory` from storage.ts, applied to the parsed
raw array: drop entries failing `isValidTestSession`, then sort most recent
first. -/
def getTestHistory (rawHistory : List JsValue) : List JsValue :=
  List.insertionSort historyGE (rawHistory.filter isValidTestSession)

/-- `isValidTestSession` specialised to an already-typed `TestSession`
record: `id` is a string, `startTime` a number and `isCompleted` a boolean by
type, so only the two length checks remain. -/
def isValidSessionRecord (s : TestSession) : Bool :=
  s.questions.length == 15 && s.userAnswers.length == 15

/-- The ascending comparator `(a, b) => a.startTime - b.startTime`. -/
def sessionLE (a b : TestSession) : Prop := a.startTime ≤ b.startTime

instance : DecidableRel sessionLE :=
  fun a b => inferInstanceAs (Decidable (a.startTime ≤ b.startTime))

instance : IsTotal TestSession sessionLE := ⟨fun a b => le_total a.startTime b.startTime⟩

instance : IsTrans TestSession sessionLE := ⟨fun _ _ _ h1 h2 => le_trans h1 h2⟩

/-- The descending comparator on typed sessions, used when `getTestHistory`
re-reads the stored list. -/
def sessionGE (a b : TestSession) : Prop := b.startTime ≤ a.startTime

instance : DecidableRel sessionGE :=
  fun a b => inferInstanceAs (Decidable (b.startTime ≤ a.startTime))

instance : IsTotal TestSession sessionGE := ⟨fun a b => le_total b.startTime a.startTime⟩

instance : IsTrans TestSession sessionGE := ⟨fun _ _ _ h1 h2 => le_trans h2 h1⟩

/-- JS `arr.slice(-n)` for a non-negative count `n`: `-0` is `0`, so `n = 0`
returns the whole array; otherwise the last `n` elements (all of them when
`n` exceeds the length). -/
def jsSliceLast (l : List TestSession) (n : ℕ) : List TestSession :=
  if n = 0 then l else l.drop (l.length - n)

/-- `cleanupOldSessions` from storage.ts: when over budget, sort ascending by
`startTime` and keep `slice(-maxSessions)`. -/
def cleanupOldSessions (sessions : List TestSession) (maxSessions : ℕ) : List TestSession :=
  if sessions.length ≤ maxSessions then sessions
  else jsSliceLast (List.insertionSort sessionLE sessions) maxSessions

/-- The stored history produced by the storage-available, in-quota path of
`saveTestSession`: reject an invalid session, otherwise read the history back
(valid entries, most recent first, as `getTestHistory` returns it), append
the new session and prune FIFO. Returns the success flag and the new stored
list. -/
def saveTestSession (stored : List TestSession) (session : TestSession)
    (maxStoredTests : ℕ) : Bool × List TestSession :=
  if ¬ isValidSessionRecord session then (false, stored)
  else
    let currentHistory := List.insertionSort sessionGE (stored.filter isValidSessionRecord)
    (true, cleanupOldSessions (currentHistory ++ [session]) maxStoredTests)

/-! ## Sample data used by concrete instances -/

/-- A fresh session exactly as `startNewTest` builds one (modulo timestamps). -/
def sampleSession : TestSession :=
  { id := "test-0"
    questions := []
    userAnswers := List.replicate 15 none
    startTime := 0
    endTime := none
    isCompleted := false
    score := none }

/-- A state whose session is frozen, with a full selection buffer and
`isActive = false`. -/
def inactiveFullState : TestState :=
  { currentSession := some { sampleSession with endTime := some 100, isCompleted := true }
    currentQuestionIndex := 0
    timeRemaining := 0
    isActive := false
    currentSelections := ["a", "b", "c", "d"] }

/-- Start a test, then submit it at time 100: the session is frozen. -/
def frozenChainA : TestState :=
  testReducer 100 (testReducer 0 initialState (.startTest sampleSession)) .submitTest

/-- Dispatch `END_TEST` at time 200 against the already-frozen session. -/
def frozenChainB : TestState := testReducer 200 frozenChainA .endTest

/-- Start a test, then submit at time 5: a completed, inactive state. -/
def completedIdleState : TestState :=
  testReducer 5 (testReducer 0 initialState (.startTest sampleSession)) .submitTest

/-! ## Reducer theorems -/

/-- Helper for C9: every single reducer step keeps the selection buffer at
four or fewer entries. -/
theorem selections_le_step (now : ℕ) (s : TestState) (a : TestAction)
    (h : s.currentSelections.length ≤ 4) :
    (testReducer now s a).currentSelections.length ≤ 4 := by
  cases a with
  | startTest p => simp [testReducer]
  | selectAngle id =>
      by_cases hmem : id ∈ s.currentSelections
      · have htr : (testReducer now s (.selectAngle id)).currentSelections =
            s.currentSelections.take (s.currentSelections.indexOf id) := by
          simp [testReducer, hmem]
        rw [htr, List.length_take]
        omega
      · by_cases h4 : 4 ≤ s.currentSelections.length
        · simpa [testReducer, hmem, h4] using h
        · have htr : (testReducer now s (.selectAngle id)).currentSelections =
              s.currentSelections ++ [id] := by
            simp [testReducer, hmem, h4]
          rw [htr, List.length_append]
          simp only [List.length_singleton]
          omega
  | deselectAngle id =>
      by_cases hmem : id ∈ s.currentSelections
      · have htr : (testReducer now s (.deselectAngle id)).currentSelections =
            s.currentSelections.take (s.currentSelections.indexOf id) := by
          simp [testReducer, hmem]
        rw [htr, List.length_take]
        omega
      · simpa [testReducer, hmem] using h
  | clearSelections => simp [testReducer]
  | nextQuestion =>
      rcases hs : s.currentSession with _ | sess
      · simpa [testReducer, hs] using h
      · simp only [testReducer, hs]
        split
        · exact h
        · split <;> simp
  | submitTest =>
      rcases hs : s.currentSession with _ | sess
      · simpa [testReducer, hs] using h
      · simp [testReducer, hs]
  | updateTimer t => simpa [testReducer] using h
  | endTest =>
      rcases hs : s.currentSession with _ | sess
      · simpa [testReducer, hs] using h
      · simp [testReducer, hs]
  | loadSession p => simp [testReducer]
  | resetTest => simp [testReducer, initialState]

/-- Helper for C9: the invariant survives any action sequence. -/
theorem runActions_selections_le :
    ∀ (acts : List (ℕ × TestAction)) (s : TestState),
      s.currentSelections.length ≤ 4 →
      (runActions s acts).currentSelections.length ≤ 4
  | [], _, h => h
  | p :: acts, s, h =>
      runActions_selections_le acts (testReducer p.1 s p.2)
        (selections_le_step p.1 s p.2 h)

/-- C9: starting from the initial state, after any finite sequence of
dispatched actions `currentSelections` has at most 4 entries, and no single
action can grow a within-bounds selection list beyond 4. -/
theorem selections_never_exceed_four (acts : List (ℕ × TestAction)) :
    (runActions initialState acts).currentSelections.length ≤ 4 ∧
    ∀ (now : ℕ) (s : TestState) (a : TestAction),
      s.currentSelections.length ≤ 4 →
      (testReducer now s a).currentSelections.length ≤ 4 :=
  ⟨runActions_selections_le acts initialState (by decide),
   fun now s a h => selections_le_step now s a h⟩

/-- Witness for C9 at a concrete action list and a concrete step. -/
theorem selections_never_exceed_four_witness :
    (runActions initialState [(0, .selectAngle "a")]).currentSelections.length ≤ 4 ∧
    (testReducer 0 initialState (.selectAngle "a")).currentSelections.length ≤ 4 :=
  ⟨(selections_never_exceed_four [(0, .selectAngle "a")]).1,
   (selections_never_exceed_four []).2 0 initialState (.selectAngle "a") (by decide)⟩

/-- C7: when the clicked angle is already selected, both `SELECT_ANGLE` and
`DESELECT_ANGLE` truncate `currentSelections` to everything strictly before
its first occurrence. -/
theorem selectAngle_truncates (now : ℕ) (s : TestState) (angleId : String)
    (h : angleId ∈ s.currentSelections) :
    (testReducer now s (.selectAngle angleId)).currentSelections =
        s.currentSelections.take (s.currentSelections.indexOf angleId) ∧
    (testReducer now s (.deselectAngle angleId)).currentSelections =
        s.currentSelections.take (s.currentSelections.indexOf angleId) := by
  constructor <;> simp [testReducer, h]

/-- Witness for C7: on selections `[A, B, C]`, re-clicking `B` leaves `[A]`,
and so does deselecting `B`. -/
theorem selectAngle_truncates_witness :
    ("B" ∈ ({ initialState with currentSelections := ["A", "B", "C"] } :
        TestState).currentSelections) ∧
    (testReducer 0 { initialState with currentSelections := ["A", "B", "C"] }
        (.selectAngle "B")).currentSelections = ["A"] ∧
    (testReducer 0 { initialState with currentSelections := ["A", "B", "C"] }
        (.deselectAngle "B")).currentSelections = ["A"] := by
  have h := selectAngle_truncates 0
    { initialState with currentSelections := ["A", "B", "C"] } "B" (by decide)
  exact ⟨by decide, h.1.trans (by decide), h.2.trans (by decide)⟩

/-- C2 counterexample: a state with a present (frozen) session,
`isActive = false` and exactly 4 selections; the claim says `NEXT_QUESTION`
must be a no-op here because the session is not active, but the reducer
moves on anyway — it never consults `isActive`. -/
theorem nextQuestion_fires_while_inactive :
    inactiveFullState.isActive = false ∧
    inactiveFullState.currentSelections.length = 4 ∧
    testReducer 0 inactiveFullState .nextQuestion ≠ inactiveFullState := by
  refine ⟨rfl, rfl, ?_⟩
  decide

/-- C2 (amended): `NEXT_QUESTION` returns the state unchanged if and only if
no session is present or the selection count differs from 4; the `isActive`
flag plays no part in the guard. -/
theorem nextQuestion_noop_iff (now : ℕ) (s : TestState) :
    testReducer now s .nextQuestion = s ↔
      ¬(s.currentSession ≠ none ∧ s.currentSelections.length = 4) := by
  rcases hsess : s.currentSession with _ | sess
  · simp [testReducer, hsess]
  · by_cases h4 : s.currentSelections.length = 4
    · have hne : testReducer now s .nextQuestion ≠ s := by
        intro heq
        have h0 := congrArg TestState.currentSelections heq
        simp only [testReducer, hsess, h4, ne_eq, not_true_eq_false, if_false] at h0
        split at h0 <;>
          · simp only [] at h0
            rw [← h0] at h4
            simp at h4
      exact iff_of_false hne (by simp [hsess, h4])
    · have heq : testReducer now s .nextQuestion = s := by
        simp [testReducer, hsess, h4]
      exact iff_of_true heq (by simp [hsess, h4])

/-- C10: `SELECT_ANGLE` appends a new angle id to a not-yet-full selection
buffer no matter whether a session is present or active. -/
theorem selectAngle_appends_without_session (now : ℕ) (s : TestState)
    (angleId : String)
    (hmem : angleId ∉ s.currentSelections)
    (hlen : s.currentSelections.length < 4) :
    (testReducer now s (.selectAngle angleId)).currentSelections =
      s.currentSelections ++ [angleId] := by
  simp [testReducer, hmem, Nat.not_le.mpr hlen]

/-- Witness for C10: a selection lands both in the Idle state (no session at
all) and in a Completed state, leaving non-empty selections there. -/
theorem selectAngle_appends_without_session_witness :
    initialState.currentSession = none ∧
    (testReducer 0 initialState (.selectAngle "x")).currentSelections = ["x"] ∧
    (completedIdleState.currentSession.map (·.isCompleted)) = some true ∧
    completedIdleState.isActive = false ∧
    (testReducer 6 completedIdleState (.selectAngle "x")).currentSelections = ["x"] := by
  refine ⟨rfl, ?_, rfl, rfl, ?_⟩
  · exact (selectAngle_appends_without_session 0 initialState "x"
      (by decide) (by decide)).trans (by decide)
  · exact (selectAngle_appends_without_session 6 completedIdleState "x"
      (by decide) (by decide)).trans (by decide)

/-- C1 counterexample: after `SUBMIT_TEST` freezes the session at time 100
(`isCompleted = true`, `endTime = 100`), dispatching `END_TEST` at time 200
overwrites the frozen record's `endTime` in place — same session id, new
`endTime` — rather than leaving it unchanged or replacing it with a
different session. -/
theorem frozen_session_endTime_overwritten :
    (frozenChainA.currentSession.map (·.isCompleted)) = some true ∧
    (frozenChainA.currentSession.map (·.endTime)) = some (some 100) ∧
    (frozenChainB.currentSession.map (·.endTime)) = some (some 200) ∧
    (frozenChainB.currentSession.map (·.id)) =
      (frozenChainA.currentSession.map (·.id)) :=
  ⟨rfl, rfl, rfl, rfl⟩

/-- C1 (amended): with a frozen session installed, the selection and timer
actions (and a `NEXT_QUESTION` whose guard fails) leave the frozen record
untouched, `START_TEST`/`LOAD_SESSION` replace it wholesale and `RESET_TEST`
removes it — but `END_TEST` re-stamps its `endTime` with the current time,
and `SUBMIT_TEST` does the same (also overwriting an answer slot when
selections are pending). -/
theorem frozen_session_mutation (now : ℕ) (s : TestState) (sess : TestSession)
    (h : s.currentSession = some sess) (_hfrozen : sess.isCompleted = true) :
    (∀ id, (testReducer now s (.selectAngle id)).currentSession = some sess) ∧
    (∀ id, (testReducer now s (.deselectAngle id)).currentSession = some sess) ∧
    ((testReducer now s .clearSelections).currentSession = some sess) ∧
    (∀ t, (testReducer now s (.updateTimer t)).currentSession = some sess) ∧
    (s.currentSelections.length ≠ 4 →
      (testReducer now s .nextQuestion).currentSession = some sess) ∧
    (∀ p, (testReducer now s (.startTest p)).currentSession = some p) ∧
    (∀ p, (testReducer now s (.loadSession p)).currentSession = some p) ∧
    ((testReducer now s .resetTest).currentSession = none) ∧
    ((testReducer now s .endTest).currentSession =
        some { sess with endTime := some now, isCompleted := true }) ∧
    ((testReducer now s .submitTest).currentSession.map (·.endTime) =
        some (some now)) := by
  refine ⟨?_, ?_, ?_, ?_, ?_, ?_, ?_, ?_, ?_, ?_⟩
  · intro id
    simp only [testReducer]
    split
    · exact h
    · split
      · exact h
      · exact h
  · intro id
    simp only [testReducer]
    split
    · exact h
    · exact h
  · exact h
  · intro t
    exact h
  · intro h4
    simp [testReducer, h, h4]
  · intro p
    rfl
  · intro p
    rfl
  · rfl
  · simp [testReducer, h]
  · simp [testReducer, h]

/-- Witness for C1 at the concrete frozen state reached by
start-then-submit. -/
theorem frozen_session_mutation_witness :
    (testReducer 300 frozenChainA .clearSelections).currentSession =
      some { sampleSession with endTime := some 100, isCompleted := true } :=
  (frozen_session_mutation 300 frozenChainA
      { sampleSession with endTime := some 100, isCompleted := true }
      (by decide) rfl).2.2.1

/-! ## Scoring theorems -/

/-- Helper for C6: `arraysEqual` decides list equality. -/
theorem arraysEqual_iff (arr1 arr2 : List String) :
    arraysEqual arr1 arr2 = true ↔ arr1 = arr2 := by
  unfold arraysEqual
  by_cases hlen : arr1.length = arr2.length
  · rw [if_neg (by simpa using hlen)]
    simp only [List.all_eq_true, List.mem_range, beq_iff_eq]
    constructor
    · intro hall
      refine List.ext_getElem hlen fun i h1 h2 => ?_
      have := hall i h1
      rwa [List.getD_eq_getElem arr1 "" h1, List.getD_eq_getElem arr2 "" h2] at this
    · rintro rfl
      intro i _
      rfl
  · rw [if_pos (by simpa using hlen)]
    exact iff_of_false (by simp) fun h => hlen (by rw [h])

/-- C6: `isAnswerCorrect` is false for an absent answer, false when the
answer's length is not 4, and otherwise true exactly when the answer equals
`correctOrder` elementwise, in order. -/
theorem isAnswerCorrect_iff (question : Question)
    (userAnswer : Option (List String)) :
    isAnswerCorrect question userAnswer = true ↔
      userAnswer = some question.correctOrder ∧
        question.correctOrder.length = 4 := by
  cases userAnswer with
  | none => simp [isAnswerCorrect]
  | some arr =>
      by_cases h4 : arr.length = 4
      · rw [isAnswerCorrect, if_neg (by simpa using h4), arraysEqual_iff]
        constructor
        · intro he
          exact ⟨by rw [he], by rw [← he]; exact h4⟩
        · rintro ⟨hsome, _⟩
          exact Option.some_injective _ hsome
      · rw [isAnswerCorrect, if_pos (by simpa using h4)]
        refine iff_of_false (by simp) ?_
        rintro ⟨hsome, hlen⟩
        have : arr = question.correctOrder := Option.some_injective _ hsome
        rw [this] at h4
        exact h4 hlen

/-! ## Storage theorems -/

/-- The persisted-history validity predicate exactly as the claim words it:
a string id, a 15-element question list and a 15-element answer list —
nothing more. Kept separate so it can be compared with the source's
`isValidTestSession`. -/
def claimedValidEntry (v : JsValue) : Bool :=
  (jsField v "id").isString &&
  (jsField v "questions").isArray &&
  ((jsField v "questions").arrayLength == 15) &&
  (jsField v "userAnswers").isArray &&
  ((jsField v "userAnswers").arrayLength == 15)

/-- An entry carrying exactly the claim's required fields and nothing else. -/
def bareEntry : JsValue :=
  .obj [("id", .str "x"),
        ("questions", .arr (List.replicate 15 .nullV)),
        ("userAnswers", .arr (List.replicate 15 .nullV))]

/-- C4 counterexample: `bareEntry` satisfies the claim's three conditions yet
is filtered out of the history, because `isValidTestSession` additionally
requires a numeric `startTime` and a boolean `isCompleted`. -/
theorem claimed_valid_entry_filtered :
    claimedValidEntry bareEntry = true ∧
    isValidTestSession bareEntry = false ∧
    getTestHistory [bareEntry] = [] :=
  ⟨rfl, rfl, rfl⟩

/-- C4 (amended): an entry is kept if and only if it has a string `id`,
15-element `questions` and `userAnswers` arrays, a numeric `startTime` and a
boolean `isCompleted`; reading the history retains exactly the entries
passing this predicate. -/
theorem isValidTestSession_characterization :
    (∀ v : JsValue, isValidTestSession v = true ↔
        ((jsField v "id").isString = true ∧
         (jsField v "questions").isArray = true ∧
         (jsField v "questions").arrayLength = 15 ∧
         (jsField v "userAnswers").isArray = true ∧
         (jsField v "userAnswers").arrayLength = 15 ∧
         (jsField v "startTime").isNumber = true ∧
         (jsField v "isCompleted").isBoolean = true)) ∧
    (∀ (raw : List JsValue) (e : JsValue),
        e ∈ getTestHistory raw ↔ e ∈ raw ∧ isValidTestSession e = true) := by
  constructor
  · intro v
    cases v <;>
      simp [isValidTestSession, jsField] <;> tauto
  · intro raw e
    unfold getTestHistory
    rw [(List.perm_insertionSort historyGE _).mem_iff]
    simp [List.mem_filter]

/-- A minimal syntactically complete question, reused by storage samples. -/
def dummyQuestion : Question := { id := 1, angles := [], correctOrder := [] }

/-- A storable (15-question, 15-answer) completed session whose `startTime`
is `n`. -/
def storedSession (n : ℕ) : TestSession :=
  { id := toString n
    questions := List.replicate 15 dummyQuestion
    userAnswers := List.replicate 15 none
    startTime := n
    endTime := some n
    isCompleted := true
    score := none }

/-- C8 counterexample: with a configured maximum of 0 the claim demands that
0 sessions remain after saving over budget, but `slice(-0)` is `slice(0)`
and keeps everything — 2 sessions survive. -/
theorem savePruning_fails_at_zero_max :
    (saveTestSession [storedSession 1] (storedSession 2) 0).2.length = 2 := by
  decide

set_option maxRecDepth 8000 in
/-- C8 (amended): for a positive configured maximum, saving a valid session
leaves `min (validStored + 1) max` sessions; the kept sessions together with
the dropped ones reassemble the appended history and every dropped session
starts no later than every kept one. Concretely, saving sessions with start
times 1..55 into an empty store under the default maximum 50 leaves exactly
the 50 most recent, with start times 6..55. -/
theorem saveTestSession_prunes (stored : List TestSession)
    (session : TestSession) (maxStoredTests : ℕ)
    (hmax : 1 ≤ maxStoredTests)
    (hvalid : isValidSessionRecord session = true) :
    ((saveTestSession stored session maxStoredTests).2.length =
        min ((stored.filter isValidSessionRecord).length + 1) maxStoredTests) ∧
    (∃ dropped : List TestSession,
        (dropped ++ (saveTestSession stored session maxStoredTests).2).Perm
          ((stored.filter isValidSessionRecord) ++ [session]) ∧
        ∀ d ∈ dropped, ∀ k ∈ (saveTestSession stored session maxStoredTests).2,
          d.startTime ≤ k.startTime) ∧
    (((List.range 55).foldl
        (fun st n => (saveTestSession st (storedSession (n + 1)) 50).2)
        []).map (·.startTime) = (List.range 50).map (· + 6)) := by
  have hconcrete : ((List.range 55).foldl
      (fun st n => (saveTestSession st (storedSession (n + 1)) 50).2)
      []).map (·.startTime) = (List.range 50).map (· + 6) := by
    decide
  have hsave : (saveTestSession stored session maxStoredTests).2 =
      cleanupOldSessions
        (List.insertionSort sessionGE (stored.filter isValidSessionRecord)
          ++ [session]) maxStoredTests := by
    simp [saveTestSession, hvalid]
  set app := List.insertionSort sessionGE (stored.filter isValidSessionRecord)
      ++ [session] with happ
  have happerm : app.Perm ((stored.filter isValidSessionRecord) ++ [session]) :=
    (List.perm_insertionSort sessionGE _).append_right [session]
  have happlen : app.length = (stored.filter isValidSessionRecord).length + 1 := by
    rw [happ, List.length_append, (List.perm_insertionSort sessionGE _).length_eq,
      List.length_singleton]
  by_cases hover : app.length ≤ maxStoredTests
  · have hclean : cleanupOldSessions app maxStoredTests = app := by
      simp [cleanupOldSessions, hover]
    refine ⟨?_, ⟨[], ?_, ?_⟩, hconcrete⟩
    · rw [hsave, hclean, happlen, Nat.min_eq_left (by omega)]
    · rw [hsave, hclean]
      simpa using happerm
    · intro d hd
      simp at hd
  · have hns : maxStoredTests ≠ 0 := by omega
    have hsortlen : (List.insertionSort sessionLE app).length = app.length :=
      (List.perm_insertionSort sessionLE app).length_eq
    have hclean : cleanupOldSessions app maxStoredTests =
        (List.insertionSort sessionLE app).drop
          ((List.insertionSort sessionLE app).length - maxStoredTests) := by
      rw [cleanupOldSessions, if_neg hover]
      rw [jsSliceLast, if_neg hns]
    refine ⟨?_, ⟨(List.insertionSort sessionLE app).take
        ((List.insertionSort sessionLE app).length - maxStoredTests),
        ?_, ?_⟩, hconcrete⟩
    · rw [hsave, hclean, List.length_drop, hsortlen, happlen]
      omega
    · rw [hsave, hclean, List.take_append_drop]
      exact (List.perm_insertionSort sessionLE app).trans happerm
    · intro d hd k hk
      rw [hsave, hclean] at hk
      have hs : (List.insertionSort sessionLE app).Pairwise sessionLE :=
        List.sorted_insertionSort sessionLE app
      rw [← List.take_append_drop
        ((List.insertionSort sessionLE app).length - maxStoredTests)
        (List.insertionSort sessionLE app)] at hs
      exact (List.pairwise_append.mp hs).2.2 d hd k hk

/-- Witness for C8 applying the pruning theorem at a concrete save. -/
theorem saveTestSession_prunes_witness :
    (saveTestSession [] (storedSession 1) 50).2.length = 1 := by
  have h := saveTestSession_prunes [] (storedSession 1) 50 (by decide) (by decide)
  simpa using h.1

/-! ## Generator theorems

The generator functions only advance the tape position; the tape itself is
never changed. These `tape`-preservation lemmas carry `RState.Valid` through
the pipeline. -/

/-- The all-zero randomness tape. -/
def zeroTape : RState := ⟨fun _ => 0, 0⟩

theorem zeroTape_valid : RState.Valid zeroTape :=
  fun _ => ⟨le_refl 0, by simp [zeroTape]⟩

theorem RState.valid_of_tape_eq {r r2 : RState} (h : r2.tape = r.tape)
    (hr : r.Valid) : r2.Valid := by
  intro n
  rw [h]
  exact hr n

theorem selectBaseAngle_tape (r : RState) :
    (selectBaseAngle r).2.tape = r.tape := by
  simp only [selectBaseAngle]
  split <;> rfl

theorem generateAngleSetLoop_tape (baseAngle : ℚ) :
    ∀ (fuel i : ℕ) (acc : List ℚ) (last : ℚ) (r : RState),
      (generateAngleSetLoop baseAngle i fuel acc last r).2.tape = r.tape
  | 0, _, _, _, _ => rfl
  | fuel + 1, i, acc, last, r => by
      simp only [generateAngleSetLoop]
      split
      · rw [generateAngleSetLoop_tape baseAngle fuel]
        rfl
      · rw [generateAngleSetLoop_tape baseAngle fuel]
        rfl

theorem fixUniqueness_tape :
    ∀ (l : List ℚ) (prev : ℚ) (r : RState),
      (fixUniqueness prev l r).2.tape = r.tape
  | [], _, _ => rfl
  | a :: rest, prev, r => by
      simp only [fixUniqueness]
      split
      · rw [fixUniqueness_tape rest]
        rfl
      · exact fixUniqueness_tape rest a r

theorem generateAngleSet_tape (baseAngle : ℚ) (r : RState) :
    (generateAngleSet baseAngle r).2.tape = r.tape := by
  simp only [generateAngleSet]
  split
  · exact generateAngleSetLoop_tape baseAngle 3 1 [baseAngle] baseAngle r
  · rw [fixUniqueness_tape]
    exact generateAngleSetLoop_tape baseAngle 3 1 [baseAngle] baseAngle r

theorem angleSetAttempts_tape :
    ∀ (fuel : ℕ) (r : RState), (angleSetAttempts fuel r).2.tape = r.tape
  | 0, _ => rfl
  | fuel + 1, r => by
      simp only [angleSetAttempts]
      split
      · rw [generateAngleSet_tape, selectBaseAngle_tape]
      · rw [angleSetAttempts_tape fuel, generateAngleSet_tape, selectBaseAngle_tape]

theorem addVisualPropertiesMap_tape :
    ∀ (ds : List ℚ) (i : ℕ) (r : RState),
      (addVisualPropertiesMap ds i r).2.tape = r.tape
  | [], _, _ => rfl
  | d :: ds, i, r => by
      simp only [addVisualPropertiesMap]
      rw [addVisualPropertiesMap_tape ds]
      rfl

/-- The retry loop hands back only validated angle sets. -/
theorem angleSetAttempts_valid :
    ∀ (fuel : ℕ) (r : RState) (s : List ℚ),
      (angleSetAttempts fuel r).1 = some s → validateAngleSet s = true
  | 0, r, s => by
      intro h
      exact absurd h (by simp [angleSetAttempts])
  | fuel + 1, r, s => by
      intro h
      by_cases hval :
          validateAngleSet
            (generateAngleSet (selectBaseAngle r).1 (selectBaseAngle r).2).1 = true
      · simp only [angleSetAttempts, hval, if_true] at h
        obtain rfl : _ = s := Option.some_injective _ h
        exact hval
      · have hvf :
            validateAngleSet
              (generateAngleSet (selectBaseAngle r).1 (selectBaseAngle r).2).1 = false :=
          Bool.eq_false_iff.mpr hval
        simp only [angleSetAttempts, hvf, Bool.false_eq_true, if_false] at h
        exact angleSetAttempts_valid fuel _ s h

/-- `Math.round(degrees * 10) / 10`. -/
def roundTenth (d : ℚ) : ℚ := (jsRound (d * 10) : ℚ) / 10

/-- The id list `addVisualPropertiesMap` produces, index by index. -/
def idsFrom : ℕ → List ℚ → List String
  | _, [] => []
  | i, d :: ds => mkAngleId i (jsRound (d * 100)) :: idsFrom (i + 1) ds

theorem addVisualPropertiesMap_degrees :
    ∀ (ds : List ℚ) (i : ℕ) (r : RState),
      (addVisualPropertiesMap ds i r).1.map (·.degrees) = ds.map roundTenth
  | [], _, _ => rfl
  | d :: ds, i, r => by
      simp only [addVisualPropertiesMap, List.map_cons]
      rw [addVisualPropertiesMap_degrees ds]
      rfl

theorem addVisualPropertiesMap_ids :
    ∀ (ds : List ℚ) (i : ℕ) (r : RState),
      (addVisualPropertiesMap ds i r).1.map (·.id) = idsFrom i ds
  | [], _, _ => rfl
  | d :: ds, i, r => by
      simp only [addVisualPropertiesMap, List.map_cons, idsFrom]
      rw [addVisualPropertiesMap_ids ds]
      rfl

theorem addVisualPropertiesMap_length (ds : List ℚ) (i : ℕ) (r : RState) :
    (addVisualPropertiesMap ds i r).1.length = ds.length := by
  have h := congrArg List.length (addVisualPropertiesMap_degrees ds i r)
  simpa using h

/-! ### Uniqueness of generated angle ids

The template string `angle-${index}-${...}` pins the index in its seventh
character, so ids with distinct single-digit indices differ. -/

theorem toString_data_of_lt_ten {i : ℕ} (hi : i < 10) :
    (toString i).data = [Nat.digitChar i] := by
  interval_cases i <;> rfl

theorem mkAngleId_data {i : ℕ} (hi : i < 10) (v : ℤ) :
    (mkAngleId i v).data =
      'a' :: 'n' :: 'g' :: 'l' :: 'e' :: '-' :: Nat.digitChar i :: '-' ::
        (toString v).data := by
  unfold mkAngleId
  rw [String.data_append, String.data_append, String.data_append,
    toString_data_of_lt_ten hi]
  rfl

theorem mkAngleId_inj_index {i j : ℕ} {v w : ℤ} (hi : i < 10) (hj : j < 10)
    (h : mkAngleId i v = mkAngleId j w) : i = j := by
  have hd := congrArg String.data h
  rw [mkAngleId_data hi v, mkAngleId_data hj w] at hd
  have hchar : Nat.digitChar i = Nat.digitChar j := by
    simp only [List.cons.injEq] at hd
    exact hd.2.2.2.2.2.2.1
  have hinj : ∀ a < 10, ∀ b < 10, Nat.digitChar a = Nat.digitChar b → a = b := by
    decide
  exact hinj i hi j hj hchar

theorem mem_idsFrom_index :
    ∀ (ds : List ℚ) (i : ℕ) (s : String), s ∈ idsFrom i ds →
      ∃ j v, i ≤ j ∧ j < i + ds.length ∧ s = mkAngleId j v
  | [], i, s, h => absurd h (List.not_mem_nil s)
  | d :: ds, i, s, h => by
      rcases List.mem_cons.mp h with heq | hmem
      · exact ⟨i, jsRound (d * 100), le_refl i, by simp, heq⟩
      · obtain ⟨j, v, hij, hlt, heq⟩ := mem_idsFrom_index ds (i + 1) s hmem
        refine ⟨j, v, by omega, ?_, heq⟩
        simp only [List.length_cons]
        omega

theorem idsFrom_nodup :
    ∀ (ds : List ℚ) (i : ℕ), i + ds.length ≤ 10 → (idsFrom i ds).Nodup
  | [], _, _ => List.nodup_nil
  | d :: ds, i, h => by
      simp only [idsFrom, List.nodup_cons]
      have hlen : i + (d :: ds).length ≤ 10 := h
      simp only [List.length_cons] at hlen
      constructor
      · intro hmem
        obtain ⟨j, v, hij, hjlt, heq⟩ := mem_idsFrom_index ds (i + 1) _ hmem
        have : i = j := mkAngleId_inj_index (by omega) (by omega) heq
        omega
      · exact idsFrom_nodup ds (i + 1) (by omega)

/-! ### Distinctness of the rounded degrees -/

theorem gapsOK_pairwise :
    ∀ l : List ℚ, gapsOK l = true → l.Pairwise (fun a b => a + 1/2 ≤ b)
  | [], _ => List.Pairwise.nil
  | [a], _ => by simp
  | a :: b :: t, h => by
      simp only [gapsOK, Bool.and_eq_true, decide_eq_true_eq] at h
      have hrest := gapsOK_pairwise (b :: t) h.2
      refine List.Pairwise.cons ?_ hrest
      intro c hc
      rcases List.mem_cons.mp hc with rfl | hct
      · linarith [h.1]
      · have := List.rel_of_pairwise_cons hrest hct
        linarith [h.1]

theorem roundTenth_lt {a b : ℚ} (h : a + 1/2 ≤ b) :
    roundTenth a < roundTenth b := by
  unfold roundTenth jsRound
  have hle : ⌊a * 10 + 1/2⌋ + 5 ≤ ⌊b * 10 + 1/2⌋ := by
    calc ⌊a * 10 + 1/2⌋ + 5 = ⌊a * 10 + 1/2 + (5 : ℤ)⌋ := (Int.floor_add_int _ _).symm
      _ ≤ ⌊b * 10 + 1/2⌋ := Int.floor_le_floor (by push_cast; linarith)
  have hlt : ⌊a * 10 + 1/2⌋ < ⌊b * 10 + 1/2⌋ := by omega
  have hq : ((⌊a * 10 + 1/2⌋ : ℤ) : ℚ) < ((⌊b * 10 + 1/2⌋ : ℤ) : ℚ) := by
    exact_mod_cast hlt
  have h10 : (0 : ℚ) < 10 := by norm_num
  exact div_lt_div_of_pos_right hq h10

theorem validateAngleSet_gaps {s : List ℚ} (h : validateAngleSet s = true) :
    gapsOK (List.insertionSort (· ≤ ·) s) = true := by
  simp only [validateAngleSet] at h
  split at h
  · exact absurd h (by simp)
  · simp only [Bool.and_eq_true] at h
    exact h.1

theorem validateAngleSet_length {s : List ℚ} (h : validateAngleSet s = true) :
    s.length = 4 := by
  by_contra hne
  simp [validateAngleSet, hne] at h

theorem degrees_pairwise_ne {s : List ℚ} (h : validateAngleSet s = true) :
    s.Pairwise (fun a b => roundTenth a ≠ roundTenth b) := by
  have hpair := gapsOK_pairwise _ (validateAngleSet_gaps h)
  have hup : (List.insertionSort (· ≤ ·) s).Pairwise
      (fun a b => roundTenth a ≠ roundTenth b) :=
    hpair.imp fun hab => ne_of_lt (roundTenth_lt hab)
  exact ((List.perm_insertionSort (· ≤ ·) s).pairwise_iff
    (fun hxy => hxy.symm)).mp hup

/-! ### Sorting by degrees is unique on distinct keys -/

/-- The strict comparator on degrees. -/
def degLT (a b : Angle) : Prop := a.degrees < b.degrees

instance : IsAntisymm Angle degLT :=
  ⟨fun _ _ h1 h2 => absurd (lt_trans h1 h2) (lt_irrefl _)⟩

theorem sorted_eq_of_perm {l1 l2 : List Angle} (hp : l1.Perm l2)
    (hs1 : l1.Pairwise degLE) (hs2 : l2.Pairwise degLE)
    (hne : l1.Pairwise fun a b => a.degrees ≠ b.degrees) : l1 = l2 := by
  have hne2 : l2.Pairwise fun a b => a.degrees ≠ b.degrees :=
    (hp.pairwise_iff fun hxy => hxy.symm).mp hne
  have h1 : l1.Pairwise degLT :=
    (hs1.and hne).imp fun hab => lt_of_le_of_ne hab.1 hab.2
  have h2 : l2.Pairwise degLT :=
    (hs2.and hne2).imp fun hab => lt_of_le_of_ne hab.1 hab.2
  exact List.eq_of_perm_of_sorted hp h1 h2

/-! ### The Fisher–Yates shuffle is a permutation -/

theorem listSwap_length (l : List Angle) (i j : ℕ) :
    (listSwap l i j).length = l.length := by
  simp [listSwap]

theorem cons_set_perm :
    ∀ (xs : List Angle) (k : ℕ), k < xs.length → ∀ x : Angle,
      (xs.getD k default :: xs.set k x).Perm (x :: xs)
  | [], k, hk, x => absurd hk (by simp)
  | y :: ys, 0, _, x => by
      simp only [List.getD_cons_zero, List.set_cons_zero]
      exact List.Perm.swap x y ys
  | y :: ys, k + 1, hk, x => by
      simp only [List.getD_cons_succ, List.set_cons_succ]
      refine List.Perm.trans
        (List.Perm.swap y (ys.getD k default) (ys.set k x)) ?_
      refine List.Perm.trans
        ((cons_set_perm ys k (by simpa using hk) x).cons y) ?_
      exact List.Perm.swap x y ys

theorem listSwap_perm :
    ∀ (l : List Angle) (i j : ℕ), i < l.length → j < l.length →
      (listSwap l i j).Perm l
  | [], _, _, hi, _ => absurd hi (by simp)
  | y :: ys, 0, 0, _, _ => by
      simp [listSwap]
  | y :: ys, 0, j + 1, _, hj => by
      simp only [listSwap, List.getD_cons_zero, List.getD_cons_succ,
        List.set_cons_zero, List.set_cons_succ]
      exact cons_set_perm ys j (by simpa using hj) y
  | y :: ys, i + 1, 0, hi, _ => by
      simp only [listSwap, List.getD_cons_zero, List.getD_cons_succ,
        List.set_cons_zero, List.set_cons_succ]
      exact cons_set_perm ys i (by simpa using hi) y
  | y :: ys, i + 1, j + 1, hi, hj => by
      simp only [listSwap, List.getD_cons_succ, List.set_cons_succ]
      exact (listSwap_perm ys i j (by simpa using hi) (by simpa using hj)).cons y

theorem shuffleLoop_perm :
    ∀ (i : ℕ) (l : List Angle) (r : RState),
      r.Valid → i < l.length → ((shuffleLoop l i r).1).Perm l
  | 0, l, _, _, _ => List.Perm.refl l
  | i + 1, l, r, hr, hi => by
      simp only [shuffleLoop]
      have hq := hr r.pos
      have hj : (⌊(mathRandom r).1 * ((i : ℚ) + 2)⌋).toNat ≤ i + 1 := by
        have h0 : (0 : ℚ) ≤ (mathRandom r).1 := hq.1
        have h1 : (mathRandom r).1 < 1 := hq.2
        have hfl : ⌊(mathRandom r).1 * ((i : ℚ) + 2)⌋ < ((i : ℤ) + 2) := by
          apply Int.floor_lt.mpr
          push_cast
          nlinarith [Nat.cast_nonneg (α := ℚ) i]
        omega
      have hswap : (listSwap l (i + 1)
          (⌊(mathRandom r).1 * ((i : ℚ) + 2)⌋).toNat).Perm l :=
        listSwap_perm l (i + 1) _ hi (by omega)
      have hrec := shuffleLoop_perm i
        (listSwap l (i + 1) (⌊(mathRandom r).1 * ((i : ℚ) + 2)⌋).toNat)
        (mathRandom r).2 (fun n => hr n)
        (by rw [listSwap_length]; omega)
      exact hrec.trans hswap

theorem shuffleArray_perm (l : List Angle) (r : RState) (hr : r.Valid) :
    ((shuffleArray l r).1).Perm l := by
  cases l with
  | nil => exact List.Perm.refl _
  | cons a as =>
      exact shuffleLoop_perm as.length (a :: as) r hr (by simp)

/-! ### Assembly: a question built from a validated set passes validation -/

theorem validateQuestion_holds (qid : ℕ) (hqid : qid ≠ 0)
    (angles shuffled : List Angle)
    (hperm : shuffled.Perm angles)
    (hlen : angles.length = 4)
    (hids : (angles.map (·.id)).Nodup)
    (hdeg : angles.Pairwise fun a b => a.degrees ≠ b.degrees) :
    validateQuestion
      { id := qid, angles := shuffled,
        correctOrder := (List.insertionSort degLE angles).map (·.id) } = true := by
  have hsortperm : (List.insertionSort degLE angles).Perm angles :=
    List.perm_insertionSort degLE angles
  have hcoperm : ((List.insertionSort degLE angles).map (·.id)).Perm
      (angles.map (·.id)) := hsortperm.map _
  have hconodup : ((List.insertionSort degLE angles).map (·.id)).Nodup :=
    hcoperm.nodup_iff.mpr hids
  have hshufids : (shuffled.map (·.id)).Perm (angles.map (·.id)) := hperm.map _
  have hshufnodup : (shuffled.map (·.id)).Nodup := hshufids.nodup_iff.mpr hids
  have hshuflen : shuffled.length = 4 := hperm.length_eq.trans hlen
  have hcolen : ((List.insertionSort degLE angles).map (·.id)).length = 4 := by
    rw [List.length_map, hsortperm.length_eq, hlen]
  have hidslen : (shuffled.map (·.id)).length = 4 := by
    rw [List.length_map, hshuflen]
  have hsorteq : List.insertionSort degLE shuffled =
      List.insertionSort degLE angles := by
    apply sorted_eq_of_perm
    · exact (List.perm_insertionSort degLE shuffled).trans
        (hperm.trans hsortperm.symm)
    · exact List.sorted_insertionSort degLE shuffled
    · exact List.sorted_insertionSort degLE angles
    · exact (((List.perm_insertionSort degLE shuffled).trans hperm).pairwise_iff
        (fun hxy => hxy.symm)).mpr hdeg
  simp only [validateQuestion, getCorrectOrder]
  rw [if_neg hqid]
  rw [if_neg (by simp [hshuflen, hcolen])]
  rw [if_neg (by simp [hshufnodup.dedup, hidslen])]
  rw [if_neg (by simp [hshufnodup.dedup, hconodup.dedup, hidslen, hcolen])]
  have hall : (shuffled.map (·.id)).all
      (fun id => ((List.insertionSort degLE angles).map (·.id)).contains id) =
        true := by
    simp only [List.all_eq_true]
    intro x hx
    have hx2 : x ∈ angles.map (·.id) := hshufids.mem_iff.mp hx
    have hx3 : x ∈ (List.insertionSort degLE angles).map (·.id) :=
      hcoperm.mem_iff.mpr hx2
    simpa using hx3
  rw [if_neg (not_not_intro hall)]
  rw [decide_eq_true_eq]
  exact congrArg (List.map fun a => a.id) hsorteq

/-- C5 counterexample: for `questionId = 0` (a perfectly possible argument —
the claim quantifies over every questionId), the generated question fails
validation, because `validateQuestion` rejects the falsy id `0`. -/
theorem generateQuestion_invalid_at_zero :
    validateQuestion (generateQuestion 0 zeroTape).1 = false := by
  with_unfolding_all decide

/-- C5 (amended): for every nonzero `questionId` and every outcome of the
randomness source — including the fallback path after 50 failed attempts —
the generated question passes `validateQuestion`: 4 angles, 4 `correctOrder`
entries, pairwise-distinct ids, matching id sets, and `correctOrder` equal to
the ids sorted ascending by degrees. -/
theorem generateQuestion_valid (questionId : ℕ) (r : RState)
    (hq : questionId ≠ 0) (hr : r.Valid) :
    validateQuestion (generateQuestion questionId r).1 = true := by
  have hset : validateAngleSet
      ((angleSetAttempts 50 r).1.getD [30, 35, 40, 45]) = true := by
    rcases hres : (angleSetAttempts 50 r).1 with _ | s
    · simp only [Option.getD_none]
      with_unfolding_all decide
    · simpa using angleSetAttempts_valid 50 r s hres
  have hsetlen : ((angleSetAttempts 50 r).1.getD [30, 35, 40, 45]).length = 4 :=
    validateAngleSet_length hset
  have hlen : ((addVisualPropertiesMap
      ((angleSetAttempts 50 r).1.getD [30, 35, 40, 45]) 0
      (angleSetAttempts 50 r).2).1).length = 4 :=
    (addVisualPropertiesMap_length _ _ _).trans hsetlen
  have hids : (((addVisualPropertiesMap
      ((angleSetAttempts 50 r).1.getD [30, 35, 40, 45]) 0
      (angleSetAttempts 50 r).2).1).map (·.id)).Nodup := by
    rw [addVisualPropertiesMap_ids]
    exact idsFrom_nodup _ 0 (by omega)
  have hdeg : ((addVisualPropertiesMap
      ((angleSetAttempts 50 r).1.getD [30, 35, 40, 45]) 0
      (angleSetAttempts 50 r).2).1).Pairwise
      (fun a b => a.degrees ≠ b.degrees) := by
    have hpar := degrees_pairwise_ne hset
    have h1 : ((((angleSetAttempts 50 r).1.getD [30, 35, 40, 45]).map
        roundTenth).Pairwise (fun a b => a ≠ b)) :=
      List.pairwise_map.mpr hpar
    rw [← addVisualPropertiesMap_degrees _ 0 (angleSetAttempts 50 r).2] at h1
    exact List.pairwise_map.mp h1
  have hvalid2 : ((addVisualPropertiesMap
      ((angleSetAttempts 50 r).1.getD [30, 35, 40, 45]) 0
      (angleSetAttempts 50 r).2).2).Valid := by
    apply RState.valid_of_tape_eq ?_ hr
    rw [addVisualPropertiesMap_tape, angleSetAttempts_tape]
  have hperm := shuffleArray_perm
    ((addVisualPropertiesMap
      ((angleSetAttempts 50 r).1.getD [30, 35, 40, 45]) 0
      (angleSetAttempts 50 r).2).1)
    ((addVisualPropertiesMap
      ((angleSetAttempts 50 r).1.getD [30, 35, 40, 45]) 0
      (angleSetAttempts 50 r).2).2) hvalid2
  exact validateQuestion_holds questionId hq _ _ hperm hlen hids hdeg

/-- Witness for C5 at the all-zero tape and `questionId = 1`. -/
theorem generateQuestion_valid_witness :
    validateQuestion (generateQuestion 1 zeroTape).1 = true :=
  generateQuestion_valid 1 zeroTape (by decide) zeroTape_valid

/-- C3 counterexample: under the all-zero randomness outcome every generated
angle has `armLength1 = armLength2 = 60`, so the difference between the two
arms is 0 — no positive minimum arm-length difference is enforced (the code
has no such configured value at all). -/
theorem equal_arm_lengths_generated :
    ((generateQuestion 1 zeroTape).1.angles.all
        fun a => a.armLength1 == a.armLength2) = true ∧
    (generateQuestion 1 zeroTape).1.angles.length = 4 := by
  constructor <;> with_unfolding_all decide

/-- Helper for C3: `Math.round` of `60 + q * 100` with `q ∈ [0, 1)` lies in
`[60, 160]`. -/
theorem jsRound_arm_bounds {q : ℚ} (h0 : 0 ≤ q) (h1 : q < 1) :
    60 ≤ jsRound (60 + q * (160 - 60)) ∧ jsRound (60 + q * (160 - 60)) ≤ 160 := by
  unfold jsRound
  constructor
  · apply Int.le_floor.mpr
    push_cast
    nlinarith
  · have hfl : ⌊(60 : ℚ) + q * (160 - 60) + 1/2⌋ < (161 : ℤ) := by
      apply Int.floor_lt.mpr
      push_cast
      nlinarith
    omega

/-- C3 (amended): both arm lengths of every generated angle lie within the
configured bounds `[60, 160]`; no minimum difference between the two arms is
enforced. -/
theorem armLengths_within_bounds (degrees : ℚ) (index : ℕ) (r : RState)
    (hr : r.Valid) :
    (60 ≤ (addVisualProperties degrees index r).1.armLength1 ∧
      (addVisualProperties degrees index r).1.armLength1 ≤ 160) ∧
    (60 ≤ (addVisualProperties degrees index r).1.armLength2 ∧
      (addVisualProperties degrees index r).1.armLength2 ≤ 160) := by
  have h2 := hr (r.pos + 1)
  have h3 := hr (r.pos + 2)
  exact ⟨jsRound_arm_bounds h2.1 h2.2, jsRound_arm_bounds h3.1 h3.2⟩

/-- Witness for C3's amended bounds at the all-zero tape. -/
theorem armLengths_within_bounds_witness :
    (60 ≤ (addVisualProperties 30 0 zeroTape).1.armLength1 ∧
      (addVisualProperties 30 0 zeroTape).1.armLength1 ≤ 160) ∧
    (60 ≤ (addVisualProperties 30 0 zeroTape).1.armLength2 ∧
      (addVisualProperties 30 0 zeroTape).1.armLength2 ≤ 160) :=
  armLengths_within_bounds 30 0 zeroTape zeroTape_valid

end AnglePractice
